import Mathlib

/-!
Shallow embedding of the document-segmentation pipeline and the vector-store
layer of the repository (files `src/data_preprocessing.py`, `src/embedderDB.py`,
`utils/utils.py`).  Text is modelled as `List Char`; Python's `None`-returning
or exception-raising behaviour is modelled with `Option` / `Except`.
-/

/-- Python `str.isspace` class used by `str.strip` and by the regex class
`\s` (ASCII range, which is all the pipeline's patterns rely on). -/
def pyIsSpace (c : Char) : Bool :=
  c = ' ' ∨ c = '\t' ∨ c = '\n' ∨ c = '\r' ∨ c = '\x0b' ∨ c = '\x0c'

/-- ASCII lowercasing, extended with the one non-ASCII letter occurring in the
section keywords (`ó` in "Introducción"), mirroring `re.IGNORECASE`. -/
def pyLower (c : Char) : Char :=
  if c = 'Ó' then 'ó' else c.toLower

/-- Python `str.strip()`: drop leading and trailing whitespace. -/
def pyStrip (l : List Char) : List Char :=
  ((l.dropWhile pyIsSpace).reverse.dropWhile pyIsSpace).reverse

/-- Python `text.split("\n")`: always returns at least one (possibly empty)
chunk. -/
def splitLines : List Char → List (List Char)
  | [] => [[]]
  | c :: rest =>
    match splitLines rest with
    | [] => [[c]]
    | l :: ls => if c = '\n' then [] :: l :: ls else (c :: l) :: ls

/-- Python `"\n".join(lines)`. -/
def joinLines (ls : List (List Char)) : List Char :=
  match ls with
  | [] => []
  | [l] => l
  | l :: ls' => l ++ '\n' :: joinLines ls'

/-- `doc.split("\n")[0]`; the split list is provably non-empty, so the
default is never used. -/
def firstLineOf (doc : List Char) : List Char :=
  (splitLines doc).headD []

/-- `doc.split("\n")[-1]`. -/
def lastLineOf (doc : List Char) : List Char :=
  (splitLines doc).getLastD []

/-- One step of the maximum search underlying `most_common(1)`: replace the
current best only on a strictly larger count, so the earliest maximum
wins. -/
def mcStep (l : List (List Char)) (acc : Option (List Char)) (x : List Char) :
    Option (List Char) :=
  match acc with
  | none => some x
  | some b => if l.count b < l.count x then some x else acc

/-- `Counter(l).most_common(1)[0][0]`: the element of maximal multiplicity,
ties broken by first occurrence (CPython iterates the counter in insertion
order and `max` keeps the first maximum); `none` exactly when the list is
empty (Python raises `IndexError` there). -/
def mostCommon (l : List (List Char)) : Option (List Char) :=
  l.foldl (mcStep l) none

/-- `Preprocessor.remove_headers_and_footers` (`data_preprocessing.py`
lines 63–89).  Returns `none` where Python raises `IndexError`: when
`all_texts` is empty (`most_common(1)[0]` on an empty counter) or when
removing the header left no line for `lines[-1]` to index. -/
def remove_headers_and_footers (text : List Char) (all_texts : List (List Char)) :
    Option (List Char) :=
  let lines := splitLines text
  let first_lines := all_texts.map firstLineOf
  let last_lines := all_texts.map lastLineOf
  match mostCommon first_lines, mostCommon last_lines with
  | some common_first, some common_last =>
    let lines1 := if pyStrip (lines.headD []) = pyStrip common_first then lines.tail else lines
    match lines1.getLast? with
    | none => none
    | some lastL =>
      let lines2 := if pyStrip lastL = pyStrip common_last then lines1.dropLast else lines1
      some (joinLines lines2)
  | _, _ => none

def pageH1 : List Char := "H\nBody1\nF".toList

def pageH2 : List Char := "H\nBody2\nF".toList

def pageH3 : List Char := "H\nBody3\nOther".toList

def pagesHBF : List (List Char) := [pageH1, pageH2, pageH3]

/-- The section-start alternation `(Abstract|Resumen|Introduction|Introducción)`
of `parse_from_abstract_or_introduction`, lowercased (the regex is compiled
with `re.IGNORECASE`). -/
def startKeywords : List (List Char) :=
  ["abstract".toList, "resumen".toList, "introduction".toList, "introducción".toList]

/-- The reference-section alternation `(References|Bibliography|Referencias)`,
lowercased. -/
def refKeywords : List (List Char) :=
  ["references".toList, "bibliography".toList, "referencias".toList]

/-- Does one of the (lowercase) keywords match case-insensitively at the very
start of `t`? -/
def keywordAt (kws : List (List Char)) (t : List Char) : Bool :=
  kws.any (fun kw => (t.take kw.length).map pyLower = kw)

/-- `regex.search`: position of the leftmost case-insensitive occurrence of
any keyword, `none` if there is no match. -/
def findKeyword (kws : List (List Char)) : List Char → Option Nat
  | [] => none
  | c :: rest =>
    if keywordAt kws (c :: rest) then some 0
    else (findKeyword kws rest).map (fun i => i + 1)

/-- `Preprocessor.parse_from_abstract_or_introduction`
(`data_preprocessing.py` lines 177–220).  `own_citation` and `threshold`
are parameters of the Python function that its body never reads. -/
def parse_from_abstract_or_introduction (text own_citation : List Char)
    (threshold : ℚ) : List Char × Bool :=
  let match_start := findKeyword startKeywords text
  let match_end := findKeyword refKeywords text
  let stop_processing := match_end.isSome
  match match_start, match_end with
  | some s, some e => ((text.drop s).take (e - s), stop_processing)
  | some s, none => (text.drop s, stop_processing)
  | none, _ => (text, stop_processing)

/-- Chars consumed from `rest` by the greedy `\s*\n` part of the paragraph
separator regex `\.\s*\n`: the separator runs through the last newline of the
maximal whitespace run, or fails if that run holds no newline. -/
def paraSepConsumed (rest : List Char) : Option Nat :=
  let w := rest.takeWhile pyIsSpace
  let tailNoNl := w.reverse.takeWhile (fun c => ¬ c = '\n')
  if w.contains '\n' then some (w.length - tailNoNl.length) else none

/-- `re.split(r"\.\s*\n", text)` scanning left to right; `fuel` bounds the
recursion and is instantiated with the text length, which always suffices. -/
def splitParasAux : Nat → List Char → List (List Char)
  | _, [] => [[]]
  | 0, l => [l]
  | fuel + 1, c :: rest =>
    if c = '.' then
      match paraSepConsumed rest with
      | some k => [] :: splitParasAux fuel (rest.drop k)
      | none =>
        match splitParasAux fuel rest with
        | [] => [[c]]
        | l :: ls => (c :: l) :: ls
    else
      match splitParasAux fuel rest with
      | [] => [[c]]
      | l :: ls => (c :: l) :: ls

def splitParas (t : List Char) : List (List Char) :=
  splitParasAux t.length t

/-- `Preprocessor.split_into_paragraphs` (`data_preprocessing.py`
lines 233–247): strip the text, split on `\.\s*\n`, strip every part and
drop the empty ones. -/
def split_into_paragraphs (text : List Char) : List (List Char) :=
  ((splitParas (pyStrip text)).map pyStrip).filter (fun p => decide (p ≠ []))

/-- The caption labels of the regex
`^(Figura|Table|Figure|Fig)\s*\d+\.` (lowercased, `re.IGNORECASE`). -/
def figureLabels : List (List Char) :=
  ["figura".toList, "table".toList, "figure".toList, "fig".toList]

/-- One alternative of the caption regex: the label case-insensitively at the
start, optional whitespace, one or more digits, then a literal period. -/
def matchLabel (lab : List Char) (s : List Char) : Bool :=
  if (s.take lab.length).map pyLower = lab then
    decide (((s.drop lab.length).dropWhile pyIsSpace).takeWhile Char.isDigit ≠ []) &&
      decide ((((s.drop lab.length).dropWhile pyIsSpace).dropWhile Char.isDigit).head? =
        some '.')
  else false

/-- `re.match` of `^(Figura|Table|Figure|Fig)\s*\d+\.` with `IGNORECASE`. -/
def figureMatch (s : List Char) : Bool :=
  figureLabels.any (fun lab => matchLabel lab s)

/-- `Preprocessor.remove_figure_or_table_paragraphs` (`data_preprocessing.py`
lines 249–266). -/
def remove_figure_or_table_paragraphs (paragraphs : List (List Char)) :
    List (List Char) :=
  paragraphs.filter (fun para => ! figureMatch (pyStrip para))

/-- Reading the reversed unit: does it begin with `)`, four digits and `(` —
that is, does the unit end with a parenthesized four-digit year? -/
def citYearRev (t : List Char) : Bool :=
  match t with
  | c0 :: c1 :: c2 :: c3 :: c4 :: c5 :: _ =>
    decide (c0 = ')') && c1.isDigit && c2.isDigit && c3.isDigit && c4.isDigit &&
      decide (c5 = '(')
  | _ => false

/-- Reading the reversed unit after its trailing whitespace: one optional
period, then the parenthesized year. -/
def citAfterSpaceRev (t : List Char) : Bool :=
  if t.head? = some '.' then citYearRev t.tail else citYearRev t

/-- `re.match` of the bare-citation regex
`^\s*(?:\d+\.\s*)?.*?\(\d{4}\)\.?\s*$` with `re.DOTALL`
(`data_preprocessing.py` lines 277–282): since the lazy `.*?` absorbs
anything, the pattern accepts exactly the strings that, after the trailing
whitespace and one optional trailing period are peeled off, end in a
parenthesized four-digit year. -/
def citationMatch (s : List Char) : Bool :=
  citAfterSpaceRev (s.reverse.dropWhile pyIsSpace)

/-- One record appended to `Preprocessor.data`: the sentence together with
the metadata dict built at `data_preprocessing.py` lines 291–297. -/
structure SegRec where
  sentence : List Char
  title : List Char
  authors : List (List Char)
  year : List Char
  citation : List Char
  phrase_number : Nat
deriving DecidableEq

/-- The per-sentence loop of `Preprocessor.extract_sentences_and_metadata`
(`data_preprocessing.py` lines 284–300): strip each unit, keep it when it is
non-empty and fails the citation regex, and give kept units consecutive
`phrase_number`s starting from the accumulator. -/
def emitLoop (title : List Char) (authors : List (List Char))
    (year citation : List Char) : Nat → List (List Char) → List SegRec
  | _, [] => []
  | n, s :: rest =>
    let c := pyStrip s
    if c ≠ [] ∧ citationMatch c = false then
      ⟨c, title, authors, year, citation, n⟩ :: emitLoop title authors year citation (n + 1) rest
    else emitLoop title authors year citation n rest

/-- `Preprocessor.extract_sentences_and_metadata` (`data_preprocessing.py`
lines 268–300), returning the records it appends to `self.data` in order. -/
def extract_sentences_and_metadata (text title : List Char)
    (authors : List (List Char)) (year citation : List Char) : List SegRec :=
  emitLoop title authors year citation 1
    (remove_figure_or_table_paragraphs (split_into_paragraphs text))

def exSectionText : List Char :=
  "Title page junk\nAbstract\nReal content\nReferences\n[1] more".toList

def exSectionWin : List Char := "Abstract\nReal content\n".toList

def exRefsOnly : List Char := "References".toList

def exFigText : List Char := "Figure 1. A plot.\nThe results show X.".toList

def exResultsUnit : List Char := "The results show X.".toList

def exTitle : List Char := "T".toList

def exAuthors : List (List Char) := ["Au".toList]

def exYear : List Char := "2020".toList

def exCitation : List Char := "Cit".toList

/-- The document-level metadata returned by `extract_metadata_from_document`
on success: `(title, authors, year, citation)`. -/
structure DocMeta where
  title : List Char
  authors : List (List Char)
  year : List Char
  citation : List Char
deriving DecidableEq

/-- One PDF file as seen by `process_pdfs`: the page texts produced by the
external loader, and the outcome of the external metadata-extraction call on
its first page (`none` models the LLM call raising, which
`extract_metadata_from_document` converts into a `RuntimeError`). -/
structure PdfFile where
  pages : List (List Char)
  metaOutcome : Option DocMeta
deriving DecidableEq

/-- The uncaught exceptions that can escape the body of `process_pdfs`. -/
inductive RunError where
  | metadataFailure
  | pageFailure
deriving DecidableEq

/-- The inner page loop of `process_pdfs` (`data_preprocessing.py`
lines 108–120): clean each page against all pages, parse the section window,
extract sentence records when the window is non-empty (Python truthiness of
`parsed_text`), and break out of the loop when `stop_processing` is set.
`none` models an uncaught `IndexError` from `remove_headers_and_footers`. -/
def processPagesLoop (md : DocMeta) (all_texts : List (List Char)) :
    List (List Char) → Option (List SegRec)
  | [] => some []
  | page :: rest =>
    match remove_headers_and_footers page all_texts with
    | none => none
    | some cleaned =>
      let pr := parse_from_abstract_or_introduction cleaned md.citation (4 / 5)
      let recs :=
        if pr.1 ≠ [] then
          extract_sentences_and_metadata pr.1 md.title md.authors md.year md.citation
        else []
      if pr.2 then some recs
      else
        match processPagesLoop md all_texts rest with
        | none => none
        | some more => some (recs ++ more)

/-- Processing of the pages of one document after its metadata was
extracted. -/
def processDocument (md : DocMeta) (pages : List (List Char)) :
    Option (List SegRec) :=
  processPagesLoop md pages pages

/-- The complete handling of one file inside `process_pdfs`: indexing
`documents[0]` (an `IndexError` when the loader returned no pages), the
metadata-extraction call (a `RuntimeError` when the external call fails,
lines 148–154), then the page loop. -/
def docOutcome (f : PdfFile) : Except RunError (List SegRec) :=
  match f.pages with
  | [] => .error .pageFailure
  | _ =>
    match f.metaOutcome with
    | none => .error .metadataFailure
    | some md =>
      match processDocument md f.pages with
      | none => .error .pageFailure
      | some recs => .ok recs

/-- The outer file loop of `process_pdfs` (`data_preprocessing.py`
lines 91–125): documents are handled in order and their records appended to
`self.data`; an exception escapes the loop, leaving the records accumulated
so far in `self.data`.  The result is that buffer together with the escaped
exception, if any. -/
def processPdfsGo (files : List PdfFile) (acc : List SegRec) :
    List SegRec × Option RunError :=
  match files with
  | [] => (acc, none)
  | f :: rest =>
    match docOutcome f with
    | .error e => (acc, some e)
    | .ok recs => processPdfsGo rest (acc ++ recs)

def process_pdfs (files : List PdfFile) : List SegRec × Option RunError :=
  processPdfsGo files []

/-- A value crossing the boundary of `utils.get_vector_id`, which
type-checks its arguments dynamically. -/
inductive PyVal where
  | str (s : List Char)
  | dict (entries : List (List Char × List Char))
  | intV (n : Int)
deriving DecidableEq

/-- Python exceptions raised by `utils.py`. -/
inductive PyError where
  | valueError
deriving DecidableEq

/-- `utils.get_vector_id` (`utils/utils.py` lines 32–48): after the two
`isinstance` checks the function body ends, so a well-typed call falls off
the end and returns Python `None` (modelled as `Option.none`); no hash is
ever computed. -/
def get_vector_id (sentence metadata : PyVal) : Except PyError (Option (List Char)) :=
  match sentence with
  | .str _ =>
    match metadata with
    | .dict _ => .ok none
    | _ => .error .valueError
  | _ => .error .valueError

/-- One element of the `data_variable` list consumed by
`EmbeddingDBFromData.create_embeddings_and_index`: a dict with a `sentence`
and a `metadata` entry (metadata kept abstract in the type parameter). -/
structure DataItem (μ : Type) where
  sentence : List Char
  metadata : μ
deriving DecidableEq

/-- A langchain `Document` built at `embedderDB.py` line 69. -/
structure VDoc (μ : Type) where
  page_content : List Char
  metadata : μ
deriving DecidableEq

/-- `EmbeddingDBFromData.create_embeddings_and_index` (`embedderDB.py`
lines 59–73): one `Document` per item of the data list, in order, with no
deduplication; `FAISS.from_documents` then stores one index entry per
document, so the resulting index contents are this list. -/
def create_embeddings_and_index {μ : Type} (data_variable : List (DataItem μ)) :
    List (VDoc μ) :=
  data_variable.map (fun item => ⟨item.sentence, item.metadata⟩)

def exMeta : DocMeta := ⟨exTitle, exAuthors, exYear, exCitation⟩

def twoPageDocP1 : List Char := "HDR\nIntroduction. Alpha beta.\nFTR".toList

def twoPageDocP2 : List Char := "HDR\nGamma delta.\nFTR".toList

def introUnit : List Char := "Introduction. Alpha beta.".toList

def gammaUnit : List Char := "Gamma delta.".toList

def goodFile : PdfFile := ⟨["A\nHello world.\nC".toList], some exMeta⟩

def badFile : PdfFile := ⟨["X".toList], none⟩

def helloUnit : List Char := "Hello world.".toList

def helloRec : SegRec := ⟨helloUnit, exTitle, exAuthors, exYear, exCitation, 1⟩

/-- Declarative reading of `Counter(l).most_common(1)[0][0]`: `x` occurs in
`l`, has maximal multiplicity, and every element strictly before the first
occurrence of `x` has strictly smaller multiplicity (first maximum wins
ties). -/
def FirstMostCommon (x : List Char) (l : List (List Char)) : Prop :=
  (∃ v1 v2, l = v1 ++ x :: v2 ∧ ∀ y ∈ v1, l.count y < l.count x) ∧
    ∀ y ∈ l, l.count y ≤ l.count x

/-- The majority of the claim's words: the most frequent element among the
NON-EMPTY lines only.  This follows the spec's sentence "majority computed
over non-empty first/last lines of every page", to be compared with the
source's `remove_headers_and_footers`, which counts every line. -/
def specNonEmptyMajority (ls : List (List Char)) : Option (List Char) :=
  mostCommon (ls.filter (fun l => decide (l ≠ [])))

/-- Some keyword of `kws` matches case-insensitively at offset `i` of
`text`. -/
def OccursAt (kws : List (List Char)) (text : List Char) (i : Nat) : Prop :=
  ∃ kw ∈ kws, ((text.drop i).take kw.length).map pyLower = kw

/-- The claim's figure/table-caption shape: the unit starts with one of the
labels (case-insensitively), optional whitespace, a number, and a period. -/
def FigShape (u : List Char) : Prop :=
  ∃ pre ws ds rest, u = pre ++ (ws ++ (ds ++ '.' :: rest)) ∧
    pre.map pyLower ∈ figureLabels ∧ (∀ c ∈ ws, pyIsSpace c = true) ∧
    ds ≠ [] ∧ ∀ c ∈ ds, Char.isDigit c = true

/-- The claim's bare-citation shape: arbitrary text (which subsumes the
optional leading number and period), a parenthesized four-digit year, an
optional trailing period, and trailing whitespace, spanning the whole
unit. -/
def CitShape (u : List Char) : Prop :=
  ∃ a ds per ws, u = a ++ '(' :: (ds ++ ')' :: (per ++ ws)) ∧ ds.length = 4 ∧
    (∀ c ∈ ds, Char.isDigit c = true) ∧ (per = [] ∨ per = ['.']) ∧
    ∀ c ∈ ws, pyIsSpace c = true

def body1Out : List Char := "Body1".toList

def body2Out : List Char := "Body2".toList

def body3Out : List Char := "Body3\nOther".toList

def hLine : List Char := "H".toList

def fLine : List Char := "F".toList

def cxPage : List Char := "A\nF".toList

def cxPages : List (List Char) := [cxPage, "B\n".toList, "B\n".toList]

def soloLine : List Char := "H".toList

def dupItem : DataItem (List Char) := ⟨helloUnit, "m".toList⟩

def citUnitEx : List Char := "1. Smith, J. Some Paper (2019).".toList

def proseUnitEx : List Char := "Smith found that results improved.".toList

/-- The records a file contributes when its handling succeeds. -/
def docRecords (f : PdfFile) : List SegRec :=
  match docOutcome f with
  | .ok recs => recs
  | .error _ => []

/-- Concatenated records of a run over files that all succeed. -/
def allDocRecords : List PdfFile → List SegRec
  | [] => []
  | f :: rest => docRecords f ++ allDocRecords rest

theorem isDigit_not_pyIsSpace {c : Char} (h : c.isDigit = true) : pyIsSpace c = false := by
  simp only [pyIsSpace, decide_eq_false_iff_not]
  rintro (rfl | rfl | rfl | rfl | rfl | rfl) <;> exact absurd h (by decide)

theorem dropWhile_append_all {p : Char → Bool} {xs : List Char} (ys : List Char)
    (h : ∀ c ∈ xs, p c = true) : (xs ++ ys).dropWhile p = ys.dropWhile p := by
  induction xs with
  | nil => rfl
  | cons a l ih =>
    simp only [List.cons_append, List.dropWhile_cons, h a (by simp)]
    exact ih (fun c hc => h c (by simp [hc]))

theorem dropWhile_cons_neg {p : Char → Bool} {a : Char} {l : List Char}
    (h : p a = false) : (a :: l).dropWhile p = a :: l := by
  simp [List.dropWhile_cons, h]

theorem takeWhile_append_stop {p : Char → Bool} {xs : List Char} {y : Char}
    (ys : List Char) (hall : ∀ c ∈ xs, p c = true) (hy : p y = false) :
    (xs ++ y :: ys).takeWhile p = xs := by
  induction xs with
  | nil => simp [List.takeWhile_cons, hy]
  | cons a l ih =>
    simp only [List.cons_append, List.takeWhile_cons, hall a (by simp)]
    simp [ih (fun c hc => hall c (by simp [hc]))]

theorem dropWhile_append_stop {p : Char → Bool} {xs : List Char} {y : Char}
    (ys : List Char) (hall : ∀ c ∈ xs, p c = true) (hy : p y = false) :
    (xs ++ y :: ys).dropWhile p = y :: ys := by
  rw [dropWhile_append_all (y :: ys) hall, dropWhile_cons_neg hy]

theorem filter_map_comm (g : List Char → List Char) (p : List Char → Bool)
    (l : List (List Char)) :
    (l.map g).filter p = (l.filter (fun x => p (g x))).map g := by
  induction l with
  | nil => rfl
  | cons a t ih =>
    by_cases h : p (g a) = true
    · simp [List.filter_cons, h, ih]
    · simp only [Bool.not_eq_true] at h
      simp [List.filter_cons, h, ih]

theorem emitLoop_map_sentence (t : List Char) (a : List (List Char)) (y c : List Char) :
    ∀ (us : List (List Char)) (n : Nat),
      (emitLoop t a y c n us).map SegRec.sentence =
        (us.map pyStrip).filter (fun u => decide (u ≠ []) && ! citationMatch u) := by
  intro us
  induction us with
  | nil => intro n; rfl
  | cons s rest ih =>
    intro n
    by_cases h : pyStrip s ≠ [] ∧ citationMatch (pyStrip s) = false
    · have hb : (decide (pyStrip s ≠ []) && ! citationMatch (pyStrip s)) = true := by
        simp [h.1, h.2]
      simp [emitLoop, h, List.filter_cons, hb, ih]
    · have hb : (decide (pyStrip s ≠ []) && ! citationMatch (pyStrip s)) = false := by
        rcases Decidable.not_and_iff_or_not.mp h with h1 | h2
        · simp at h1
          simp [h1]
        · simp only [Bool.not_eq_false] at h2
          simp [h2]
      simp [emitLoop, h, List.filter_cons, hb, ih]

theorem emitLoop_map_phrase (t : List Char) (a : List (List Char)) (y c : List Char) :
    ∀ (us : List (List Char)) (n : Nat),
      (emitLoop t a y c n us).map SegRec.phrase_number =
        List.range' n (emitLoop t a y c n us).length := by
  intro us
  induction us with
  | nil => intro n; rfl
  | cons s rest ih =>
    intro n
    by_cases h : pyStrip s ≠ [] ∧ citationMatch (pyStrip s) = false
    · simp only [emitLoop, if_pos h, List.map_cons, List.length_cons, ih]
      rw [List.range'_succ]
    · simp only [emitLoop, if_neg h, ih]

theorem mostCommon_go (l : List (List Char)) :
    ∀ (rest : List (List Char)) (acc : Option (List Char)) (v : List (List Char)),
      (acc = none → v = []) →
      (∀ b, acc = some b →
        (∃ v1 v2, v = v1 ++ b :: v2 ∧ ∀ y ∈ v1, l.count y < l.count b) ∧
          ∀ y ∈ v, l.count y ≤ l.count b) →
      ∀ b, rest.foldl (mcStep l) acc = some b →
        (∃ v1 v2, v ++ rest = v1 ++ b :: v2 ∧ ∀ y ∈ v1, l.count y < l.count b) ∧
          ∀ y ∈ v ++ rest, l.count y ≤ l.count b := by
  intro rest
  induction rest with
  | nil =>
    intro acc v _ hsome b hb
    simpa using hsome b hb
  | cons x rest ih =>
    intro acc v hnone hsome b hb
    rw [List.foldl_cons] at hb
    cases hacc : acc with
    | none =>
      have hv : v = [] := hnone hacc
      rw [hacc] at hb
      simp only [mcStep] at hb
      have h2 := ih (some x) (v ++ [x])
        (by intro h; cases h)
        (by
          intro b0 hb0
          have hbx : b0 = x := (Option.some.inj hb0).symm
          subst hbx
          subst hv
          exact ⟨⟨[], [], by simp, by simp⟩, by simp⟩)
        b hb
      simpa using h2
    | some b0 =>
      rw [hacc] at hb
      simp only [mcStep] at hb
      rcases hsome b0 hacc with ⟨⟨v1, v2, hv, hlt⟩, hle⟩
      by_cases hcount : l.count b0 < l.count x
      · rw [if_pos hcount] at hb
        have h2 := ih (some x) (v ++ [x])
          (by intro h; cases h)
          (by
            intro b1 hb1
            have hbx : b1 = x := (Option.some.inj hb1).symm
            subst hbx
            refine ⟨⟨v, [], by simp, ?_⟩, ?_⟩
            · intro z hz
              exact lt_of_le_of_lt (hle z hz) hcount
            · intro z hz
              rcases List.mem_append.mp hz with hz | hz
              · exact le_of_lt (lt_of_le_of_lt (hle z hz) hcount)
              · rcases List.mem_singleton.mp hz with rfl
                exact le_refl _)
          b hb
        simpa using h2
      · rw [if_neg hcount] at hb
        have h2 := ih (some b0) (v ++ [x])
          (by intro h; cases h)
          (by
            intro b1 hb1
            have hbx : b1 = b0 := (Option.some.inj hb1).symm
            subst hbx
            refine ⟨⟨v1, v2 ++ [x], by rw [hv]; simp, hlt⟩, ?_⟩
            intro z hz
            rcases List.mem_append.mp hz with hz | hz
            · exact hle z hz
            · rcases List.mem_singleton.mp hz with rfl
              exact le_of_not_lt hcount)
          b hb
        simpa using h2

theorem mostCommon_spec {l : List (List Char)} {x : List Char}
    (h : mostCommon l = some x) : FirstMostCommon x l := by
  unfold mostCommon at h
  have h2 := mostCommon_go l l none [] (fun _ => rfl) (by intro b hb; cases hb) x h
  simpa [FirstMostCommon] using h2

theorem occursAt_zero (kws : List (List Char)) (text : List Char) :
    OccursAt kws text 0 ↔ keywordAt kws text = true := by
  simp [OccursAt, keywordAt, List.any_eq_true]

theorem occursAt_succ (kws : List (List Char)) (c : Char) (rest : List Char) (i : Nat) :
    OccursAt kws (c :: rest) (i + 1) ↔ OccursAt kws rest i := by
  simp [OccursAt]

theorem not_occursAt_nil (kws : List (List Char)) (hk : ∀ kw ∈ kws, kw ≠ [])
    (i : Nat) : ¬ OccursAt kws [] i := by
  rintro ⟨kw, hkw, heq⟩
  exact hk kw hkw (by simpa using heq.symm)

theorem findKeyword_none_iff (kws : List (List Char)) (hk : ∀ kw ∈ kws, kw ≠ []) :
    ∀ text : List Char,
      findKeyword kws text = none ↔ ∀ i, ¬ OccursAt kws text i := by
  intro text
  induction text with
  | nil =>
    exact iff_of_true rfl (not_occursAt_nil kws hk)
  | cons c rest ih =>
    by_cases h : keywordAt kws (c :: rest) = true
    · refine iff_of_false (by simp [findKeyword, h]) ?_
      intro hall
      exact hall 0 ((occursAt_zero kws (c :: rest)).mpr h)
    · have hB : keywordAt kws (c :: rest) = false := by simpa using h
      constructor
      · intro hnone i
        rw [findKeyword, hB] at hnone
        simp only [Bool.false_eq_true, if_false, Option.map_eq_none'] at hnone
        cases i with
        | zero => rw [occursAt_zero]; simp [hB]
        | succ j =>
          rw [occursAt_succ]
          exact (ih.mp hnone) j
      · intro hall
        rw [findKeyword, hB]
        simp only [Bool.false_eq_true, if_false, Option.map_eq_none']
        exact ih.mpr (fun j => (occursAt_succ kws c rest j).mp.mt (hall (j + 1)))

theorem findKeyword_some_iff (kws : List (List Char)) (hk : ∀ kw ∈ kws, kw ≠ []) :
    ∀ (text : List Char) (i : Nat),
      findKeyword kws text = some i ↔
        OccursAt kws text i ∧ ∀ j < i, ¬ OccursAt kws text j := by
  intro text
  induction text with
  | nil =>
    intro i
    refine iff_of_false (by simp [findKeyword]) ?_
    rintro ⟨hocc, -⟩
    exact not_occursAt_nil kws hk i hocc
  | cons c rest ih =>
    intro i
    by_cases h : keywordAt kws (c :: rest) = true
    · cases i with
      | zero =>
        refine iff_of_true (by simp [findKeyword, h]) ?_
        exact ⟨(occursAt_zero kws (c :: rest)).mpr h, by omega⟩
      | succ j =>
        refine iff_of_false (by simp [findKeyword, h]) ?_
        rintro ⟨-, hmin⟩
        exact hmin 0 (by omega) ((occursAt_zero kws (c :: rest)).mpr h)
    · have hB : keywordAt kws (c :: rest) = false := by simpa using h
      cases i with
      | zero =>
        refine iff_of_false ?_ ?_
        · rw [findKeyword, hB]
          simp
        · rintro ⟨hocc, -⟩
          rw [occursAt_zero] at hocc
          exact h hocc
      | succ j =>
        rw [findKeyword, hB]
        simp only [Bool.false_eq_true, if_false, Option.map_eq_some']
        constructor
        · rintro ⟨a, ha, haj⟩
          have haj2 : a = j := by omega
          rw [haj2] at ha
          rcases (ih j).mp ha with ⟨hocc, hmin⟩
          refine ⟨(occursAt_succ kws c rest j).mpr hocc, ?_⟩
          intro m hm
          cases m with
          | zero => intro hocc0; exact h ((occursAt_zero kws (c :: rest)).mp hocc0)
          | succ m' =>
            rw [occursAt_succ]
            exact hmin m' (by omega)
        · rintro ⟨hocc, hmin⟩
          refine ⟨j, (ih j).mpr ⟨(occursAt_succ kws c rest j).mp hocc, ?_⟩, rfl⟩
          intro m hm
          have := hmin (m + 1) (by omega)
          rw [occursAt_succ] at this
          exact this

theorem processPdfsGo_past_ok_files :
    ∀ (pre rest : List PdfFile) (acc : List SegRec),
      (∀ f ∈ pre, ∃ recs, docOutcome f = .ok recs) →
      processPdfsGo (pre ++ rest) acc = processPdfsGo rest (acc ++ allDocRecords pre) := by
  intro pre
  induction pre with
  | nil => intro rest acc _; simp [allDocRecords]
  | cons f pre ih =>
    intro rest acc hok
    obtain ⟨recs, hrecs⟩ := hok f (by simp)
    rw [List.cons_append, processPdfsGo, hrecs]
    show processPdfsGo (pre ++ rest) (acc ++ recs) =
      processPdfsGo rest (acc ++ allDocRecords (f :: pre))
    rw [ih rest (acc ++ recs) (fun g hg => hok g (by simp [hg]))]
    have hdr : docRecords f = recs := by rw [docRecords, hrecs]
    rw [show allDocRecords (f :: pre) = docRecords f ++ allDocRecords pre from rfl, hdr,
      List.append_assoc]

theorem figureMatch_iff (u : List Char) : figureMatch u = true ↔ FigShape u := by
  constructor
  · intro hm
    rcases List.any_eq_true.mp hm with ⟨lab, hlab, hmatch⟩
    by_cases hc : (u.take lab.length).map pyLower = lab
    · rw [matchLabel, if_pos hc, Bool.and_eq_true, decide_eq_true_eq,
        decide_eq_true_eq] at hmatch
      obtain ⟨hds, hdot⟩ := hmatch
      obtain ⟨tl, hD⟩ : ∃ tl,
          ((u.drop lab.length).dropWhile pyIsSpace).dropWhile Char.isDigit = '.' :: tl := by
        rcases hE : ((u.drop lab.length).dropWhile pyIsSpace).dropWhile Char.isDigit with
          _ | ⟨c0, tl⟩
        · rw [hE] at hdot; cases hdot
        · rw [hE] at hdot
          simp only [List.head?_cons, Option.some.injEq] at hdot
          exact ⟨tl, by rw [hdot]⟩
      refine ⟨u.take lab.length,
        (u.drop lab.length).takeWhile pyIsSpace,
        ((u.drop lab.length).dropWhile pyIsSpace).takeWhile Char.isDigit,
        tl, ?_, by rw [hc]; exact hlab, ?_, hds, ?_⟩
      · calc u = u.take lab.length ++ u.drop lab.length :=
              (List.take_append_drop lab.length u).symm
          _ = u.take lab.length ++ ((u.drop lab.length).takeWhile pyIsSpace ++
                (u.drop lab.length).dropWhile pyIsSpace) := by
              congr 1
              exact (List.takeWhile_append_dropWhile pyIsSpace (u.drop lab.length)).symm
          _ = u.take lab.length ++ ((u.drop lab.length).takeWhile pyIsSpace ++
                (((u.drop lab.length).dropWhile pyIsSpace).takeWhile Char.isDigit ++
                  ((u.drop lab.length).dropWhile pyIsSpace).dropWhile Char.isDigit)) := by
              congr 1
              congr 1
              exact (List.takeWhile_append_dropWhile Char.isDigit
                ((u.drop lab.length).dropWhile pyIsSpace)).symm
          _ = _ := by rw [hD]
      · intro ch hch
        exact List.mem_takeWhile_imp hch
      · intro ch hch
        exact List.mem_takeWhile_imp hch
    · rw [matchLabel, if_neg hc] at hmatch
      cases hmatch
  · rintro ⟨pre, ws, ds, rest, hu, hlab, hws, hds, hdig⟩
    apply List.any_eq_true.mpr
    refine ⟨pre.map pyLower, hlab, ?_⟩
    have hlen : (pre.map pyLower).length = pre.length := List.length_map pre pyLower
    have htake : u.take pre.length = pre := by
      rw [hu, List.take_left]
    have hdrop : u.drop pre.length = ws ++ (ds ++ '.' :: rest) := by
      rw [hu, List.drop_left]
    obtain ⟨d0, ds', rfl⟩ : ∃ d0 ds', ds = d0 :: ds' := by
      cases ds with
      | nil => exact absurd rfl hds
      | cons d0 ds' => exact ⟨d0, ds', rfl⟩
    have hd0 : Char.isDigit d0 = true := hdig d0 (by simp)
    have ht1 : (u.drop pre.length).dropWhile pyIsSpace = (d0 :: ds') ++ '.' :: rest := by
      rw [hdrop, dropWhile_append_all _ hws, List.cons_append,
        dropWhile_cons_neg (isDigit_not_pyIsSpace hd0)]
    have htw : ((d0 :: ds') ++ '.' :: rest).takeWhile Char.isDigit = d0 :: ds' :=
      takeWhile_append_stop rest hdig (by decide)
    have hdw : ((d0 :: ds') ++ '.' :: rest).dropWhile Char.isDigit = '.' :: rest :=
      dropWhile_append_stop rest hdig (by decide)
    rw [matchLabel, hlen, htake, if_pos rfl, ht1, htw, hdw]
    simp

theorem citationMatch_iff (u : List Char) : citationMatch u = true ↔ CitShape u := by
  constructor
  · intro hm
    rw [citationMatch, citAfterSpaceRev] at hm
    set w := u.reverse.takeWhile pyIsSpace with hw
    obtain ⟨r, hr⟩ : ∃ r, u.reverse.dropWhile pyIsSpace = r := ⟨_, rfl⟩
    rw [hr] at hm
    have hu2 : u = (w ++ r).reverse := by
      rw [hw, ← hr, List.takeWhile_append_dropWhile, List.reverse_reverse]
    have hwsall : ∀ ch ∈ w.reverse, pyIsSpace ch = true := by
      intro ch hch
      rw [hw] at hch
      exact List.mem_takeWhile_imp (List.mem_reverse.mp hch)
    by_cases hdot : r.head? = some '.'
    · rw [if_pos hdot] at hm
      obtain ⟨r', rfl⟩ : ∃ r', r = '.' :: r' := by
        rcases r with _ | ⟨c0, r'⟩
        · cases hdot
        · simp only [List.head?_cons, Option.some.injEq] at hdot
          exact ⟨r', by rw [hdot]⟩
      simp only [List.tail_cons] at hm
      rcases r' with _ | ⟨e0, _ | ⟨e1, _ | ⟨e2, _ | ⟨e3, _ | ⟨e4, _ | ⟨e5, z⟩⟩⟩⟩⟩⟩ <;>
        try exact Bool.noConfusion hm
      rw [show citYearRev (e0 :: e1 :: e2 :: e3 :: e4 :: e5 :: z) =
        (decide (e0 = ')') && e1.isDigit && e2.isDigit && e3.isDigit && e4.isDigit &&
          decide (e5 = '(')) from rfl] at hm
      simp only [Bool.and_eq_true, decide_eq_true_eq] at hm
      obtain ⟨⟨⟨⟨⟨h0, h1⟩, h2⟩, h3⟩, h4⟩, h5⟩ := hm
      subst h0
      subst h5
      refine ⟨z.reverse, [e4, e3, e2, e1], ['.'], w.reverse, ?_, rfl, ?_,
        Or.inr rfl, hwsall⟩
      · rw [hu2]
        simp
      · intro ch hch
        simp only [List.mem_cons, List.not_mem_nil, or_false] at hch
        rcases hch with rfl | rfl | rfl | rfl
        · exact h4
        · exact h3
        · exact h2
        · exact h1
    · rw [if_neg hdot] at hm
      rcases r with _ | ⟨e0, _ | ⟨e1, _ | ⟨e2, _ | ⟨e3, _ | ⟨e4, _ | ⟨e5, z⟩⟩⟩⟩⟩⟩ <;>
        try exact Bool.noConfusion hm
      rw [show citYearRev (e0 :: e1 :: e2 :: e3 :: e4 :: e5 :: z) =
        (decide (e0 = ')') && e1.isDigit && e2.isDigit && e3.isDigit && e4.isDigit &&
          decide (e5 = '(')) from rfl] at hm
      simp only [Bool.and_eq_true, decide_eq_true_eq] at hm
      obtain ⟨⟨⟨⟨⟨h0, h1⟩, h2⟩, h3⟩, h4⟩, h5⟩ := hm
      subst h0
      subst h5
      refine ⟨z.reverse, [e4, e3, e2, e1], [], w.reverse, ?_, rfl, ?_,
        Or.inl rfl, hwsall⟩
      · rw [hu2]
        simp
      · intro ch hch
        simp only [List.mem_cons, List.not_mem_nil, or_false] at hch
        rcases hch with rfl | rfl | rfl | rfl
        · exact h4
        · exact h3
        · exact h2
        · exact h1
  · rintro ⟨a, ds, per, ws, hu, hlen, hdig, hper, hws⟩
    rcases ds with _ | ⟨e1, _ | ⟨e2, _ | ⟨e3, _ | ⟨e4, _ | ⟨e5, ds⟩⟩⟩⟩⟩ <;> simp at hlen
    have hrev : u.reverse = ws.reverse ++ (per.reverse ++
        (')' :: (e4 :: e3 :: e2 :: e1 :: ('(' :: a.reverse)))) := by
      rw [hu]
      simp
    have hwsrev : ∀ ch ∈ ws.reverse, pyIsSpace ch = true := by
      intro ch hch
      exact hws ch (List.mem_reverse.mp hch)
    have hd1 : e1.isDigit = true := hdig e1 (by simp)
    have hd2 : e2.isDigit = true := hdig e2 (by simp)
    have hd3 : e3.isDigit = true := hdig e3 (by simp)
    have hd4 : e4.isDigit = true := hdig e4 (by simp)
    rw [citationMatch, hrev, dropWhile_append_all _ hwsrev]
    rcases hper with rfl | rfl
    · rw [List.reverse_nil, List.nil_append, dropWhile_cons_neg (by decide)]
      rw [show citAfterSpaceRev (')' :: (e4 :: e3 :: e2 :: e1 :: ('(' :: a.reverse))) =
        (decide ((')' : Char) = ')') && e4.isDigit && e3.isDigit && e2.isDigit &&
          e1.isDigit && decide (('(' : Char) = '(')) from rfl]
      simp [hd1, hd2, hd3, hd4]
    · rw [show (['.'] : List Char).reverse = ['.'] from rfl, List.singleton_append,
        dropWhile_cons_neg (by decide)]
      rw [show citAfterSpaceRev ('.' :: (')' :: (e4 :: e3 :: e2 :: e1 ::
          ('(' :: a.reverse)))) =
        (decide ((')' : Char) = ')') && e4.isDigit && e3.isDigit && e2.isDigit &&
          e1.isDigit && decide (('(' : Char) = '(')) from rfl]
      simp [hd1, hd2, hd3, hd4]

theorem emitLoop_mem (t : List Char) (a : List (List Char)) (y c : List Char) :
    ∀ (us : List (List Char)) (n : Nat) (r : SegRec), r ∈ emitLoop t a y c n us →
      ∃ s ∈ us, r.sentence = pyStrip s ∧ pyStrip s ≠ [] ∧
        citationMatch (pyStrip s) = false := by
  intro us
  induction us with
  | nil => intro n r hr; exact absurd hr (by simp [emitLoop])
  | cons s rest ih =>
    intro n r hr
    by_cases h : pyStrip s ≠ [] ∧ citationMatch (pyStrip s) = false
    · rw [emitLoop, if_pos h] at hr
      rcases List.mem_cons.mp hr with hr | hr
      · exact ⟨s, by simp, by rw [hr], h.1, h.2⟩
      · rcases ih (n + 1) r hr with ⟨s', hs', hprop⟩
        exact ⟨s', by simp [hs'], hprop⟩
    · rw [emitLoop, if_neg h] at hr
      rcases ih n r hr with ⟨s', hs', hprop⟩
      exact ⟨s', by simp [hs'], hprop⟩

/-- Claim C1: evaluation at the failing input.  The store layer performs no
deduplication — `create_embeddings_and_index` on a data list holding the same
(sentence, metadata) pair twice builds an index with two entries for that
pair — and `get_vector_id` computes no hash at all: every well-typed call
returns Python `None`, so there is no stable id to return twice. -/
theorem c1_no_dedup_at_failing_input :
    (create_embeddings_and_index [dupItem, dupItem]).length = 2 ∧
    ((create_embeddings_and_index [dupItem, dupItem]).filter
      (fun d => decide (d.page_content = dupItem.sentence) &&
        decide (d.metadata = dupItem.metadata))).length = 2 ∧
    get_vector_id (PyVal.str dupItem.sentence) (PyVal.dict []) = .ok none :=
  ⟨rfl, rfl, rfl⟩

/-- Claim C2 (amended): when the external metadata extraction fails for one
document, the typed error (`RuntimeError`, modelled as
`RunError.metadataFailure`) escapes `process_pdfs` and aborts the ENTIRE
run — no later document is processed — while the records accumulated for the
documents processed before the failure are retained in the data buffer. -/
theorem c2_metadata_failure_aborts_run (pre : List PdfFile) (bad : PdfFile)
    (post : List PdfFile) (hok : ∀ f ∈ pre, ∃ recs, docOutcome f = .ok recs)
    (hpages : bad.pages ≠ []) (hmeta : bad.metaOutcome = none) :
    process_pdfs (pre ++ bad :: post) =
      (allDocRecords pre, some RunError.metadataFailure) := by
  have hbad : docOutcome bad = .error RunError.metadataFailure := by
    rcases hp : bad.pages with _ | ⟨p, ps⟩
    · exact absurd hp hpages
    · rw [docOutcome, hp, hmeta]
  rw [process_pdfs, processPdfsGo_past_ok_files pre (bad :: post) [] hok, List.nil_append]
  rw [show processPdfsGo (bad :: post) (allDocRecords pre) =
    (match docOutcome bad with
     | .error e => (allDocRecords pre, some e)
     | .ok recs => processPdfsGo post (allDocRecords pre ++ recs)) from rfl]
  rw [hbad]

/-- Witness for C2: a concrete run with one good document, then a failing
one, then another good one. -/
theorem c2_witness :
    process_pdfs [goodFile, badFile, goodFile] =
      (allDocRecords [goodFile], some RunError.metadataFailure) :=
  c2_metadata_failure_aborts_run [goodFile] badFile [goodFile]
    (by
      intro f hf
      rcases List.mem_singleton.mp hf with rfl
      exact ⟨[helloRec], rfl⟩)
    (by decide) rfl

/-- Counterexample for C2 as stated: a good document alone produces one
record, but when a metadata-failing document precedes it, the run aborts
with the typed error and the good document contributes nothing — the
pipeline does NOT continue with the next document. -/
theorem c2_counterexample :
    process_pdfs [badFile, goodFile] = ([], some RunError.metadataFailure) ∧
    process_pdfs [goodFile] = ([helloRec], none) :=
  ⟨rfl, rfl⟩

/-- Claim C3 (amended): the extractor's window is as claimed in the
both-found, start-only and no-start cases, but `stop_signal` is true exactly
when a REFERENCE keyword is found, regardless of the start keyword; the
`findKeyword` searches are characterised as leftmost case-insensitive
occurrences. -/
theorem c3_section_window_cases :
    (∀ (text oc : List Char) (th : ℚ),
      (parse_from_abstract_or_introduction text oc th).2 =
        (findKeyword refKeywords text).isSome) ∧
    (∀ (text oc : List Char) (th : ℚ) (s e : Nat),
      findKeyword startKeywords text = some s →
      findKeyword refKeywords text = some e →
      (parse_from_abstract_or_introduction text oc th).1 =
        (text.drop s).take (e - s)) ∧
    (∀ (text oc : List Char) (th : ℚ) (s : Nat),
      findKeyword startKeywords text = some s →
      findKeyword refKeywords text = none →
      (parse_from_abstract_or_introduction text oc th).1 = text.drop s) ∧
    (∀ (text oc : List Char) (th : ℚ),
      findKeyword startKeywords text = none →
      (parse_from_abstract_or_introduction text oc th).1 = text) ∧
    (∀ kws : List (List Char), (∀ kw ∈ kws, kw ≠ []) →
      ∀ (text : List Char) (i : Nat),
      findKeyword kws text = some i ↔
        OccursAt kws text i ∧ ∀ j < i, ¬ OccursAt kws text j) ∧
    (∀ kws : List (List Char), (∀ kw ∈ kws, kw ≠ []) → ∀ text : List Char,
      findKeyword kws text = none ↔ ∀ i, ¬ OccursAt kws text i) := by
  refine ⟨?_, ?_, ?_, ?_, fun kws hk => findKeyword_some_iff kws hk,
    fun kws hk => findKeyword_none_iff kws hk⟩
  · intro text oc th
    rcases hs : findKeyword startKeywords text with _ | s <;>
      rcases he : findKeyword refKeywords text with _ | e <;>
        simp [parse_from_abstract_or_introduction, hs, he]
  · intro text oc th s e hs he
    simp [parse_from_abstract_or_introduction, hs, he]
  · intro text oc th s hs he
    simp [parse_from_abstract_or_introduction, hs, he]
  · intro text oc th hs
    rcases he : findKeyword refKeywords text with _ | e <;>
      simp [parse_from_abstract_or_introduction, hs, he]

/-- Witness for C3: the spec's own example, with the abstract keyword at
offset 16 and the references keyword at offset 38. -/
theorem c3_witness :
    (parse_from_abstract_or_introduction exSectionText [] 0).1 =
      (exSectionText.drop 16).take (38 - 16) :=
  c3_section_window_cases.2.1 exSectionText [] 0 16 38 rfl rfl

/-- Counterexample for C3 as stated: on input "References" no start keyword
occurs, yet `stop_signal` is true — so "stop_signal is true exactly when
both keywords are found" is false. -/
theorem c3_counterexample :
    (parse_from_abstract_or_introduction exRefsOnly [] 0).2 = true ∧
    findKeyword startKeywords exRefsOnly = none :=
  ⟨rfl, rfl⟩

/-- Claim C4: evaluation at the failing input.  On a single-line page whose
sole line equals the majority header, the header removal empties the line
list and `lines[-1]` raises `IndexError` (modelled as `none`): the code
crashes instead of degrading gracefully. -/
theorem c4_single_line_crash :
    remove_headers_and_footers soloLine [soloLine, soloLine] = none := rfl

/-- Claim C5 (amended): `remove_headers_and_footers` removes at most one
leading and one trailing line; when it does not crash, the leading line is
removed exactly when its stripped form equals the stripped most frequent
first line and the trailing line exactly when its stripped form equals the
stripped most frequent last line — but both majorities are computed over ALL
pages' first/last lines, empty lines included (the `if doc.split("\n")`
guard in the source is vacuous), with first occurrence breaking ties.  The
claim's three-page example behaves as stated. -/
theorem c5_header_footer_majority :
    (∀ (text : List Char) (alls : List (List Char)) (r : List Char),
      remove_headers_and_footers text alls = some r →
      ∀ cf cl, mostCommon (alls.map firstLineOf) = some cf →
        mostCommon (alls.map lastLineOf) = some cl →
        FirstMostCommon cf (alls.map firstLineOf) ∧
        FirstMostCommon cl (alls.map lastLineOf) ∧
        ∃ ls1, ls1 = (if pyStrip ((splitLines text).headD []) = pyStrip cf
            then (splitLines text).tail else splitLines text) ∧
          ls1 ≠ [] ∧
          r = joinLines
            (if pyStrip (ls1.getLastD []) = pyStrip cl then ls1.dropLast else ls1)) ∧
    remove_headers_and_footers pageH1 pagesHBF = some body1Out ∧
    remove_headers_and_footers pageH2 pagesHBF = some body2Out ∧
    remove_headers_and_footers pageH3 pagesHBF = some body3Out := by
  refine ⟨?_, rfl, rfl, rfl⟩
  intro text alls r h cf cl hcf hcl
  refine ⟨mostCommon_spec hcf, mostCommon_spec hcl, ?_⟩
  simp only [remove_headers_and_footers, hcf, hcl] at h
  rcases hlast : (if pyStrip ((splitLines text).headD []) = pyStrip cf
      then (splitLines text).tail else splitLines text).getLast? with _ | lastL
  · rw [hlast] at h
    cases h
  · rw [hlast] at h
    refine ⟨_, rfl, ?_, ?_⟩
    · intro hnil
      rw [hnil] at hlast
      cases hlast
    · have hld : (if pyStrip ((splitLines text).headD []) = pyStrip cf
          then (splitLines text).tail else splitLines text).getLastD [] = lastL := by
        rw [List.getLastD_eq_getLast?, hlast]
        rfl
      rw [hld]
      exact (Option.some.inj h).symm

/-- Witness for C5: page 1 of the claim's example, with majority header `H`
and majority footer `F`. -/
theorem c5_witness :
    FirstMostCommon hLine (pagesHBF.map firstLineOf) ∧
    FirstMostCommon fLine (pagesHBF.map lastLineOf) ∧
    ∃ ls1, ls1 = (if pyStrip ((splitLines pageH1).headD []) = pyStrip hLine
        then (splitLines pageH1).tail else splitLines pageH1) ∧
      ls1 ≠ [] ∧
      body1Out = joinLines
        (if pyStrip (ls1.getLastD []) = pyStrip fLine then ls1.dropLast else ls1) :=
  c5_header_footer_majority.1 pageH1 pagesHBF body1Out rfl hLine fLine rfl rfl

/-- Counterexample for C5 as stated: with pages `["A\nF", "B\n", "B\n"]` the
non-empty last lines have majority `F`, which equals the first page's
trailing line — the claim says that line is removed — yet the source keeps
the page unchanged, because it computes the majority over ALL last lines
(including the two empty ones), which is the empty line. -/
theorem c5_counterexample :
    remove_headers_and_footers cxPage cxPages = some cxPage ∧
    specNonEmptyMajority (cxPages.map lastLineOf) = some (lastLineOf cxPage) ∧
    lastLineOf cxPage ≠ [] :=
  ⟨rfl, rfl, by decide⟩

/-- Claim C6 (amended): `phrase_number` is scoped to one CALL of
`extract_sentences_and_metadata` — that is, to one page's parsed text, not
to the whole document: within a call the numbers are exactly 1, 2, …, k in
emission order, and the counter restarts at 1 on the next page of the same
document. -/
theorem c6_phrase_numbers_per_call (text title : List Char)
    (authors : List (List Char)) (year citation : List Char) :
    (extract_sentences_and_metadata text title authors year citation).map
        SegRec.phrase_number =
      List.range' 1
        (extract_sentences_and_metadata text title authors year citation).length :=
  emitLoop_map_phrase title authors year citation _ 1

/-- Counterexample for C6 as stated: a two-page document emitting one record
per page yields phrase numbers [1, 1] — the counter is reset at the page
boundary, so it does not increase monotonically over the records of the
document. -/
theorem c6_counterexample :
    (processDocument exMeta [twoPageDocP1, twoPageDocP2]).map
        (fun l => l.map SegRec.phrase_number) = some [1, 1] := rfl

/-- Claim C7: every record emitted by `extract_sentences_and_metadata` is
non-empty after trimming and survives both the figure/table filter and the
citation filter; phrase numbers are 1-based and increment only on emission;
and on the claim's example only "The results show X." is emitted, with
phrase_number 1, not 2. -/
theorem c7_emission_filtering :
    (∀ (text title : List Char) (authors : List (List Char))
        (year citation : List Char) (r : SegRec),
      r ∈ extract_sentences_and_metadata text title authors year citation →
      r.sentence ≠ [] ∧ figureMatch r.sentence = false ∧
        citationMatch r.sentence = false) ∧
    (∀ (text title : List Char) (authors : List (List Char))
        (year citation : List Char),
      (extract_sentences_and_metadata text title authors year citation).map
          SegRec.phrase_number =
        List.range' 1
          (extract_sentences_and_metadata text title authors year citation).length) ∧
    extract_sentences_and_metadata exFigText exTitle exAuthors exYear exCitation =
      [⟨exResultsUnit, exTitle, exAuthors, exYear, exCitation, 1⟩] := by
  refine ⟨?_, fun text t a y c => emitLoop_map_phrase t a y c _ 1, rfl⟩
  intro text t a y c r hr
  rw [extract_sentences_and_metadata] at hr
  rcases emitLoop_mem t a y c _ 1 r hr with ⟨s, hs, hsent, hne, hcit⟩
  have hfig : figureMatch (pyStrip s) = false := by
    rcases List.mem_filter.mp hs with ⟨-, hcond⟩
    simpa using hcond
  exact ⟨by rw [hsent]; exact hne, by rw [hsent]; exact hfig,
    by rw [hsent]; exact hcit⟩

/-- Witness for C7: the emitted record of the claim's example satisfies all
three filter conditions. -/
theorem c7_witness :
    exResultsUnit ≠ [] ∧ figureMatch exResultsUnit = false ∧
      citationMatch exResultsUnit = false :=
  c7_emission_filtering.1 exFigText exTitle exAuthors exYear exCitation
    ⟨exResultsUnit, exTitle, exAuthors, exYear, exCitation, 1⟩
    (by
      rw [c7_emission_filtering.2.2]
      exact List.mem_singleton.mpr rfl)

/-- Claim C8: the two post-split filters drop a unit exactly when its
trimmed form matches the caption pattern or the bare-citation pattern (or is
empty); the caption matcher accepts exactly the units beginning with a label
from Figure/Table/Fig/Figura, a number and a period, and the citation
matcher accepts exactly the units that end with a parenthesized four-digit
year, an optional trailing period and whitespace, after arbitrary text. -/
theorem c8_filter_patterns :
    (∀ (units : List (List Char)) (title : List Char)
        (authors : List (List Char)) (year citation : List Char),
      (emitLoop title authors year citation 1
          (remove_figure_or_table_paragraphs units)).map SegRec.sentence =
        (units.filter (fun u => (decide (pyStrip u ≠ []) &&
            ! citationMatch (pyStrip u)) && ! figureMatch (pyStrip u))).map pyStrip) ∧
    (∀ u, figureMatch u = true ↔ FigShape u) ∧
    (∀ u, citationMatch u = true ↔ CitShape u) := by
  refine ⟨?_, figureMatch_iff, citationMatch_iff⟩
  intro units title authors year citation
  rw [emitLoop_map_sentence, remove_figure_or_table_paragraphs,
    filter_map_comm, List.filter_filter]

/-- Claim C9: `get_vector_id` returns Python `None` on every well-typed
call — after the two `isinstance` checks the truncated function computes no
hash at all. -/
theorem c9_get_vector_id_none (sentence metadata : PyVal)
    (hs : ∃ s, sentence = PyVal.str s) (hm : ∃ e, metadata = PyVal.dict e) :
    get_vector_id sentence metadata = .ok none := by
  rcases hs with ⟨s, rfl⟩
  rcases hm with ⟨e, rfl⟩
  rfl

/-- Witness for C9: a concrete string/dict call. -/
theorem c9_witness :
    get_vector_id (PyVal.str helloUnit) (PyVal.dict []) = .ok none :=
  c9_get_vector_id_none _ _ ⟨helloUnit, rfl⟩ ⟨[], rfl⟩

/-- Claim C10: the result of `parse_from_abstract_or_introduction` depends
only on the input text — its `own_citation` and `threshold` parameters are
never read, so the self-citation similarity filter is never consulted on
this path. -/
theorem c10_parse_ignores_citation_filter (text oc1 oc2 : List Char)
    (th1 th2 : ℚ) :
    parse_from_abstract_or_introduction text oc1 th1 =
      parse_from_abstract_or_introduction text oc2 th2 := rfl
